import Mathlib

/-!
# k8s-ldap-auth: access-log middleware and server command

A shallow embedding of `server/middlewares/log.go` (the `ProxyResponseWriter`
decorator and the `AccessLog` middleware) and of `cmd/server.go` (the flag
table and the action of the `server` command), with the properties the
specification states about them.

Conventions of the embedding:

* Go's `int` is the 64 bit two's complement integer; values are carried as
  `Int` and every arithmetic result is reduced by `wrapInt`.
* An interface value (`http.ResponseWriter`) is a method table
  `ResponseWriter σ` over a state type `σ`; calling a method returns the
  results together with the next state of the implementation.
* Code outside the repository (net/http, zerolog, urfave/cli) is modelled only
  as far as the embedded functions call into it; each such definition says so.
-/

namespace K8sLdapAuth

/-! ## Go machine integers -/

/-- Width in bits of Go's `int` on the 64 bit targets the server is built for. -/
def intBits : Nat := 64

/-- Smallest value of Go's `int`. -/
def minInt : Int := -(2 ^ 63)

/-- Largest value of Go's `int`. -/
def maxInt : Int := 2 ^ 63 - 1

/-- Two's complement reduction of a mathematical integer to Go's `int`. -/
def wrapInt (x : Int) : Int := (x + 2 ^ 63) % 2 ^ intBits - 2 ^ 63

/-- Go's `a + b` on `int` operands. -/
def addInt (a b : Int) : Int := wrapInt (a + b)

/-- Predicate saying that a mathematical integer is a value of Go's `int`. -/
def IsInt (x : Int) : Prop := minInt ≤ x ∧ x ≤ maxInt

instance (x : Int) : Decidable (IsInt x) := by
  unfold IsInt
  exact inferInstance

/-! ## net/http data the middleware touches -/

/-- Go's `error` interface value: `none` is `nil`, `some msg` an error. -/
abbrev GoError := Option String

/-- The `http.Header` map, from canonical key to the values of that key. -/
abbrev HttpHeader := List (String × List String)

/-- The `http.ResponseWriter` interface as a method table over the state `σ` of
the implementation. `Write` returns the pair `(n, err)` of the Go method. -/
structure ResponseWriter (σ : Type) where
  Header : σ → HttpHeader × σ
  Write : σ → List UInt8 → (Int × GoError) × σ
  WriteHeader : σ → Int → σ

/-! ## `ProxyResponseWriter` (log.go, lines 15 to 46) -/

/-- The struct `ProxyResponseWriter`: `parent` holds the state of the wrapped
writer, whose methods are passed as a `ResponseWriter σ`. -/
structure ProxyResponseWriter (σ : Type) where
  code : Int
  length : Int
  parent : σ

/-- The constructor `NewProxyResponseWriter`. -/
def NewProxyResponseWriter {σ : Type} (parent : σ) : ProxyResponseWriter σ :=
  { code := 200, length := 0, parent := parent }

namespace ProxyResponseWriter

variable {σ : Type}

/-- The method `Header`: `return brs.parent.Header()`. -/
def Header (rw : ResponseWriter σ) (brs : ProxyResponseWriter σ) :
    HttpHeader × ProxyResponseWriter σ :=
  let r := rw.Header brs.parent
  (r.1, { brs with parent := r.2 })

/-- The method `Write`:
`length, err := brs.parent.Write(content); brs.length += length; return length, err`. -/
def Write (rw : ResponseWriter σ) (brs : ProxyResponseWriter σ) (content : List UInt8) :
    (Int × GoError) × ProxyResponseWriter σ :=
  let r := rw.Write brs.parent content
  let length := r.1.1
  let err := r.1.2
  ((length, err), { brs with length := addInt brs.length length, parent := r.2 })

/-- The method `WriteHeader`: `brs.code = code; brs.parent.WriteHeader(code)`. -/
def WriteHeader (rw : ResponseWriter σ) (brs : ProxyResponseWriter σ) (code : Int) :
    ProxyResponseWriter σ :=
  let brs1 := { brs with code := code }
  { brs1 with parent := rw.WriteHeader brs1.parent code }

end ProxyResponseWriter

/-! ## Calls on a response writer -/

/-- One call of a method of `http.ResponseWriter`, with its arguments. -/
inductive Call where
  | Header
  | Write (content : List UInt8)
  | WriteHeader (code : Int)
  deriving DecidableEq

/-- What a call of a method of `http.ResponseWriter` returns. -/
inductive Reply where
  | Header (h : HttpHeader)
  | Write (n : Int) (err : GoError)
  | WriteHeader
  deriving DecidableEq

/-- One call made directly on a writer. -/
def ResponseWriter.call {σ : Type} (rw : ResponseWriter σ) (s : σ) : Call → Reply × σ
  | Call.Header => let r := rw.Header s; (Reply.Header r.1, r.2)
  | Call.Write content => let r := rw.Write s content; (Reply.Write r.1.1 r.1.2, r.2)
  | Call.WriteHeader code => (Reply.WriteHeader, rw.WriteHeader s code)

/-- A sequence of calls made directly on a writer, with the replies in order. -/
def ResponseWriter.run {σ : Type} (rw : ResponseWriter σ) (s : σ) : List Call → List Reply × σ
  | [] => ([], s)
  | c :: cs =>
    let r := rw.call s c
    let rest := ResponseWriter.run rw r.2 cs
    (r.1 :: rest.1, rest.2)

/-- One call made on the proxy. -/
def ProxyResponseWriter.call {σ : Type} (rw : ResponseWriter σ) (brs : ProxyResponseWriter σ) :
    Call → Reply × ProxyResponseWriter σ
  | Call.Header => let r := brs.Header rw; (Reply.Header r.1, r.2)
  | Call.Write content => let r := brs.Write rw content; (Reply.Write r.1.1 r.1.2, r.2)
  | Call.WriteHeader code => (Reply.WriteHeader, brs.WriteHeader rw code)

/-- A sequence of calls made on the proxy, with the replies in order. -/
def ProxyResponseWriter.run {σ : Type} (rw : ResponseWriter σ) (brs : ProxyResponseWriter σ) :
    List Call → List Reply × ProxyResponseWriter σ
  | [] => ([], brs)
  | c :: cs =>
    let r := brs.call rw c
    let rest := ProxyResponseWriter.run rw r.2 cs
    (r.1 :: rest.1, rest.2)

/-- The byte counts of the `Write` replies of a reply sequence, in order. -/
def writeCounts : List Reply → List Int
  | [] => []
  | Reply.Write n _ :: rs => n :: writeCounts rs
  | _ :: rs => writeCounts rs

/-- The status codes of the `WriteHeader` calls of a call sequence, in order. -/
def headerCodes : List Call → List Int
  | [] => []
  | Call.WriteHeader code :: cs => code :: headerCodes cs
  | _ :: cs => headerCodes cs

/-- The byte slices of the `Write` calls of a call sequence, in order. -/
def writeContents : List Call → List (List UInt8)
  | [] => []
  | Call.Write content :: cs => content :: writeContents cs
  | _ :: cs => writeContents cs

/-- A wrapped writer that records every call it receives, in order, and
otherwise behaves as `rw`. -/
def recording {σ : Type} (rw : ResponseWriter σ) : ResponseWriter (σ × List Call) where
  Header := fun s => let r := rw.Header s.1; (r.1, (r.2, s.2 ++ [Call.Header]))
  Write := fun s content =>
    let r := rw.Write s.1 content
    (r.1, (r.2, s.2 ++ [Call.Write content]))
  WriteHeader := fun s code => (rw.WriteHeader s.1 code, s.2 ++ [Call.WriteHeader code])

/-- A writer with the one-shot status semantics of net/http's own response:
only the first status-setting event reaches the wire, which is the first
`WriteHeader` or, when a `Write` comes first, an implicit 200. `sent` is the
status line on the wire (`none`: nothing sent yet), `body` the bytes sent. -/
structure OneShot where
  sent : Option Int
  body : List UInt8
  deriving DecidableEq

/-- The methods of the one-shot writer. -/
def oneShot : ResponseWriter OneShot where
  Header := fun s => ([], s)
  Write := fun s content =>
    let s1 := if s.sent.isNone then { s with sent := some 200 } else s
    ((content.length, none), { s1 with body := s1.body ++ content })
  WriteHeader := fun s code => if s.sent.isNone then { s with sent := some code } else s

/-- A writer that breaks the contract of `io.Writer`: its `Write` reports the
count -1 whatever it is given. -/
def negativeCount : ResponseWriter Unit where
  Header := fun s => ([], s)
  Write := fun s _ => ((-1, some "short write"), s)
  WriteHeader := fun s _ => s

/-! ## Request data and header lookup (net/http, net/textproto) -/

/-- The bytes net/textproto accepts in a header field name (RFC 7230 token
characters), given by character code. -/
def validHeaderFieldByte (c : Char) : Bool :=
  c.isAlphanum || [33, 35, 36, 37, 38, 39, 42, 43, 45, 46, 94, 95, 96, 124, 126].contains c.toNat

/-- The capitalisation loop of `textproto.CanonicalMIMEHeaderKey`: a letter is
upper case at the start and after a hyphen, lower case elsewhere. -/
def canonicalLoop : Bool → List Char → List Char
  | _, [] => []
  | upper, c :: cs =>
    let c1 := if upper && c.isLower then c.toUpper
      else if !upper && c.isUpper then c.toLower else c
    c1 :: canonicalLoop (c1 == '-') cs

/-- The function `textproto.CanonicalMIMEHeaderKey`: a key with a byte that is
not valid in a field name is returned unchanged. -/
def CanonicalMIMEHeaderKey (s : String) : String :=
  if s.data.all validHeaderFieldByte then String.mk (canonicalLoop true s.data) else s

/-- The method `http.Header.Get`: the first value stored under the canonical
form of `key`, and the empty string when there is none. -/
def HttpHeader.Get (h : HttpHeader) (key : String) : String :=
  match h.lookup (CanonicalMIMEHeaderKey key) with
  | some (v :: _) => v
  | _ => ""

/-- A `*url.URL`, represented by the text its `String` method reassembles. -/
structure URL where
  text : String
  deriving DecidableEq

/-- The method `(*url.URL).String`. -/
def URL.String (u : URL) : String := u.text

/-- The fields of `*http.Request` that `AccessLog` reads. -/
structure Request where
  RemoteAddr : String
  Method : String
  URL : URL
  Proto : String
  Header : HttpHeader
  deriving DecidableEq

/-! ## Time (package time) -/

/-- Largest `time.Duration`, in nanoseconds. -/
def maxDuration : Int := 2 ^ 63 - 1

/-- Smallest `time.Duration`, in nanoseconds. -/
def minDuration : Int := -(2 ^ 63)

/-- The method `Time.Sub` on two clock readings in nanoseconds: the difference,
saturated to the range of `time.Duration`. -/
def timeSub (t u : Int) : Int :=
  if t - u > maxDuration then maxDuration
  else if t - u < minDuration then minDuration
  else t - u

/-- The method `Duration.Microseconds`: integer division by 1000, truncated
towards zero. -/
def Microseconds (d : Int) : Int := Int.tdiv d 1000

/-! ## Structured log events (zerolog) -/

/-- The value of one field of a log event. -/
inductive FieldValue where
  | Str (val : String)
  | Int (val : Int)
  | Int64 (val : Int)
  deriving DecidableEq

/-- A zerolog event under construction: its level and its fields in the order
they were added. -/
structure Event where
  level : String
  fields : List (String × FieldValue)
  deriving DecidableEq

/-- The method `Str`. -/
def Event.Str (e : Event) (key val : String) : Event :=
  { e with fields := e.fields ++ [(key, FieldValue.Str val)] }

/-- The method `Int64`. -/
def Event.Int64 (e : Event) (key : String) (val : Int) : Event :=
  { e with fields := e.fields ++ [(key, FieldValue.Int64 val)] }

/-- The method `Int`. -/
def Event.Int (e : Event) (key : String) (val : Int) : Event :=
  { e with fields := e.fields ++ [(key, FieldValue.Int val)] }

/-- The value of the field `key` of an event, `none` when it has no such field. -/
def Event.field (e : Event) (key : String) : Option FieldValue := e.fields.lookup key

/-- The call `log.Info()` on the global logger: a new event of level info. -/
def logInfo : Event := { level := "info", fields := [] }

/-- The process-wide state the middleware touches: the events handed to the
global logger, in order, and the clock (`clock k` is what the call number `k`
of `time.Now()` reads, in nanoseconds). -/
structure Proc where
  sink : List Event
  clock : Nat → Int
  reads : Nat

/-- The method `Send`: the event is handed to the global logger. -/
def Proc.Send (p : Proc) (e : Event) : Proc := { p with sink := p.sink ++ [e] }

/-- The call `time.Now()`. -/
def Proc.Now (p : Proc) : Int × Proc := (p.clock p.reads, { p with reads := p.reads + 1 })

/-! ## `AccessLog` (log.go, lines 52 to 71) -/

/-- What a downstream handler does during one `ServeHTTP(w, req)` call that
returns: a finite program over the methods of the writer `w` it was given,
each step free to depend on what the earlier calls returned, and over the
global logger. `Return` is the return of the handler. -/
inductive Script where
  | Return
  | Header (k : HttpHeader → Script)
  | Write (content : List UInt8) (k : Int → GoError → Script)
  | WriteHeader (code : Int) (k : Script)
  | Log (e : Event) (k : Script)

/-- An `http.Handler`: the script it runs for a request. -/
abbrev Handler := Request → Script

/-- The state after a handler has returned: the proxy it wrote to, the process
state, and the calls it made on the proxy, in order. -/
structure Served (σ : Type) where
  wrapper : ProxyResponseWriter σ
  proc : Proc
  calls : List Call

/-- The call `next.ServeHTTP(wrapper, req)`: the script of the handler run
against the proxy. -/
def Script.serve {σ : Type} (rw : ResponseWriter σ) :
    Script → ProxyResponseWriter σ → Proc → Served σ
  | Script.Return, w, p => { wrapper := w, proc := p, calls := [] }
  | Script.Header k, w, p =>
    let r := w.Header rw
    let s := (k r.1).serve rw r.2 p
    { s with calls := Call.Header :: s.calls }
  | Script.Write content k, w, p =>
    let r := w.Write rw content
    let s := (k r.1.1 r.1.2).serve rw r.2 p
    { s with calls := Call.Write content :: s.calls }
  | Script.WriteHeader code k, w, p =>
    let s := k.serve rw (w.WriteHeader rw code) p
    { s with calls := Call.WriteHeader code :: s.calls }
  | Script.Log e k, w, p => k.serve rw w (p.Send e)

/-- The record `AccessLog` builds from the request, the proxy after the handler
returned, and the elapsed time. -/
def accessRecord {σ : Type} (req : Request) (wrapper : ProxyResponseWriter σ) (elapsed : Int) :
    Event :=
  logInfo
    |>.Str "remoteaddr" req.RemoteAddr
    |>.Str "method" req.Method
    |>.Str "url" req.URL.String
    |>.Str "proto" req.Proto
    |>.Int "code" wrapper.code
    |>.Int "length" wrapper.length
    |>.Str "referer" (req.Header.Get "Referer")
    |>.Str "useragent" (req.Header.Get "User-Agent")
    |>.Int64 "elapsed" (Microseconds elapsed)

/-- The handler `AccessLog(next)` serving `req` on the writer `res`: the result
is the state of `res` and of the process when it returns. -/
def AccessLog {σ : Type} (next : Handler) (rw : ResponseWriter σ) (res : σ) (req : Request)
    (p : Proc) : σ × Proc :=
  let t0 := p.Now
  let received := t0.1
  let wrapper := NewProxyResponseWriter res
  let served := (next req).serve rw wrapper t0.2
  let t1 := served.proc.Now
  let elapsed := timeSub t1.1 received
  (served.wrapper.parent, t1.2.Send (accessRecord req served.wrapper elapsed))

/-- The proxy as the downstream handler left it, in a run of `AccessLog(next)`. -/
def captured {σ : Type} (next : Handler) (rw : ResponseWriter σ) (res : σ) (req : Request)
    (p : Proc) : Served σ :=
  (next req).serve rw (NewProxyResponseWriter res) p.Now.2

/-- The request of the scenario `GET /healthz` from 10.0.0.5, sent without a
`Referer` header. -/
def healthzRequest : Request :=
  { RemoteAddr := "10.0.0.5:40312",
    Method := "GET",
    URL := { text := "/healthz" },
    Proto := "HTTP/1.1",
    Header := [("User-Agent", ["kube-probe/1.20"]), ("Accept", ["*/*"])] }

/-- A handler that sets status 204 and then writes 42 bytes. -/
def healthzHandler : Handler :=
  fun _ => Script.WriteHeader 204 (Script.Write (List.replicate 42 46) (fun _ _ => Script.Return))

/-- A handler that writes two bytes and never sets the status. -/
def bodyOnlyHandler : Handler :=
  fun _ => Script.Write [111, 107] (fun _ _ => Script.Return)

/-- A process state with an empty log and a clock that advances one
millisecond between readings. -/
def startProc : Proc := { sink := [], clock := fun k => 1000000 * k, reads := 0 }

/-! ## The `server` command (cmd/server.go)

The command is a value of urfave/cli's `Command`: a flag table and an action.
The flag table and the action are the repository's; how the library resolves
the flags and when it runs the action is modelled by `Command.Run` below. The
`Usage` texts of the command and of its flags have no effect on either and are
left out. -/

/-- A `cli.StringFlag`. -/
structure StringFlag where
  Name : String
  Value : String := ""
  EnvVars : List String := []
  Required : Bool := false
  FilePath : String := ""
  deriving DecidableEq

/-- A `cli.IntFlag`. -/
structure IntFlag where
  Name : String
  Value : Int := 0
  EnvVars : List String := []
  Required : Bool := false
  deriving DecidableEq

/-- A `cli.StringSliceFlag`; `Value` is the slice `cli.NewStringSlice` was given. -/
structure StringSliceFlag where
  Name : String
  Value : List String := []
  EnvVars : List String := []
  Required : Bool := false
  deriving DecidableEq

/-- A `cli.Flag` of one of the three kinds the command declares. -/
inductive Flag where
  | string (f : StringFlag)
  | int (f : IntFlag)
  | stringSlice (f : StringSliceFlag)
  deriving DecidableEq

/-- The name of a flag. -/
def Flag.Name : Flag → String
  | Flag.string f => f.Name
  | Flag.int f => f.Name
  | Flag.stringSlice f => f.Name

/-- The `Required` field of a flag. -/
def Flag.Required : Flag → Bool
  | Flag.string f => f.Required
  | Flag.int f => f.Required
  | Flag.stringSlice f => f.Required

/-- The current value of a flag in a parsed context. A string slice remembers
whether a command line value has been stored in it yet. -/
inductive FlagValue where
  | string (v : String)
  | int (v : Int)
  | stringSlice (v : List String) (hasBeenSet : Bool)
  deriving DecidableEq

/-- A `*cli.Context`: the value of every declared flag and the names of the
flags that have been set (on the command line, by the environment or by a file). -/
structure Context where
  values : List (String × FlagValue)
  set : List String
  deriving DecidableEq

/-- The method `c.Int(name)`. -/
def Context.Int (c : Context) (name : String) : Int :=
  match c.values.lookup name with
  | some (FlagValue.int v) => v
  | _ => 0

/-- The method `c.StringSlice(name)`. -/
def Context.StringSlice (c : Context) (name : String) : List String :=
  match c.values.lookup name with
  | some (FlagValue.stringSlice v _) => v
  | _ => []

/-- The method `c.IsSet(name)`. -/
def Context.IsSet (c : Context) (name : String) : Bool := c.set.contains name

/-- The method `c.String(name)`. -/
def Context.String (c : Context) (name : String) : String :=
  match c.values.lookup name with
  | some (FlagValue.string v) => v
  | _ => ""

/-- The arguments of one call of `server.Initialize`, in the order of its
parameters. -/
structure InitializeArgs where
  ldapURL : String
  bindDN : String
  bindPassword : String
  searchBase : String
  searchScope : String
  searchFilter : String
  memberOfProperty : String
  searchAttributes : List String
  deriving DecidableEq

/-- What running the command did to the outside: a call of `server.Initialize`
or a call of the listen function it returned. -/
inductive Effect where
  | Initialize (args : InitializeArgs)
  | Listen (addr : String)
  deriving DecidableEq

/-- Why running the command failed. -/
inductive RunError where
  | flagParse (flagName : String) (value : String)
  | flagNotDefined (flagName : String)
  | requiredFlagsNotSet (missing : List String)
  | listen (msg : String)
  deriving DecidableEq

/-- The outcome of running the command: the outside calls it made, in order,
and the error it returned (`none` for `nil`). -/
structure RunResult where
  effects : List Effect
  err : Option RunError
  deriving DecidableEq

/-- A `*cli.Command`, without its `Usage` text. -/
structure Command where
  Name : String
  Aliases : List String
  HideHelp : Bool
  Flags : List Flag
  Action : Context → RunResult

/-- The flag table of `getServerCmd`. -/
def serverFlags : List Flag :=
  [ Flag.string { Name := "host", Value := "", EnvVars := ["HOST"] },
    Flag.int { Name := "port", Value := 3000, EnvVars := ["PORT"] },
    Flag.string { Name := "ldap-host", Value := "ldap://localhost", EnvVars := ["LDAP_ADDR"] },
    Flag.string { Name := "bind-dn", EnvVars := ["LDAP_BINDDN"], Required := true },
    Flag.string { Name := "bind-credentials", EnvVars := ["LDAP_BINDCREDENTIALS"],
                  FilePath := "/etc/k8s-ldap-auth/ldap/password" },
    Flag.string { Name := "search-base", EnvVars := ["LDAP_USER_SEARCHBASE"] },
    Flag.string { Name := "search-filter", Value := "(&(objectClass=inetOrgPerson)(uid=%s))",
                  EnvVars := ["LDAP_USER_SEARCHFILTER"] },
    Flag.string { Name := "member-of-property", Value := "ismemberof",
                  EnvVars := ["LDAP_USER_MEMBEROFPROPERTY"] },
    Flag.stringSlice { Name := "search-attributes", Value := ["uid", "dn", "cn"],
                       EnvVars := ["LDAP_USER_SEARCHATTR"] },
    Flag.string { Name := "search-scope", Value := "sub", EnvVars := ["LDAP_USER_SEARCHSCOPE"] } ]

/-- The action of `getServerCmd`. `Initialize args addr` stands for
`server.Initialize(args...)(addr)`: the error the listen function returned by
`server.Initialize` gives back when called with the address. -/
def serverAction (Initialize : InitializeArgs → String → Option String) (c : Context) :
    RunResult :=
  let port := c.Int "port"
  let host := c.String "host"
  let ldapURL := c.String "ldap-host"
  let bindDN := c.String "bind-dn"
  let bindPassword := c.String "bind-credentials"
  let searchBase := c.String "search-base"
  let searchScope := c.String "search-scope"
  let searchFilter := c.String "search-filter"
  let searchAttributes := c.StringSlice "search-attributes"
  let memberOfProperty := c.String "member-of-property"
  let args : InitializeArgs :=
    { ldapURL := ldapURL, bindDN := bindDN, bindPassword := bindPassword,
      searchBase := searchBase, searchScope := searchScope, searchFilter := searchFilter,
      memberOfProperty := memberOfProperty, searchAttributes := searchAttributes }
  let addr := host ++ ":" ++ toString port
  { effects := [Effect.Initialize args, Effect.Listen addr],
    err := (Initialize args addr).map RunError.listen }

/-- The function `getServerCmd`. -/
def getServerCmd (Initialize : InitializeArgs → String → Option String) : Command :=
  { Name := "server",
    Aliases := ["s", "serve"],
    HideHelp := true,
    Flags := serverFlags,
    Action := serverAction Initialize }

/-! ## Running a command (urfave/cli v2)

The library is not part of the repository. `Command.Run` follows the steps of
its `Command.Run` that decide whether and with what values the action runs:
every flag takes its value from the environment, a file or its default
(`Flag.resolve`), the command line is parsed over these (`setFlag`), the
required flags are checked (`checkRequiredFlags`), then the action is called. -/

/-- What the process is started with: the flag occurrences of the command line
in order (flag name, value), the environment variables that are set, and the
readable files (path, content). -/
structure Invocation where
  args : List (String × String)
  env : List (String × String)
  files : List (String × String)
  deriving DecidableEq

/-- Library functions whose details differ between versions of the library,
taken as parameters: `ParseInt` is `strconv.ParseInt(s, 0, 64)`, `SplitEnv` is
how a string slice flag splits the value of an environment variable into
elements, `SplitArg` how it splits one command line value, and `EnvKept` says
whether command line values are appended to the elements taken from the
environment (`true`) or replace them (`false`). -/
structure Lib where
  ParseInt : String → Option Int
  SplitEnv : String → List String
  SplitArg : String → List String
  EnvKept : Bool

/-- The library's `flagFromEnvOrFile`: the value of the first environment
variable of the flag that is set (an empty value counts as set), else the
content of the flag's file when it can be read. -/
def flagFromEnvOrFile (inv : Invocation) (envVars : List String) (filePath : String) :
    Option String :=
  match envVars.findSome? (fun v => inv.env.lookup v) with
  | some val => some val
  | none => if filePath = "" then none else inv.files.lookup filePath

/-- The value a flag has before the command line is parsed, and whether the
environment or a file has set it (the library's `Apply`). -/
def Flag.resolve (lib : Lib) (inv : Invocation) : Flag → Except RunError (FlagValue × Bool)
  | Flag.string f =>
    match flagFromEnvOrFile inv f.EnvVars f.FilePath with
    | some val => Except.ok (FlagValue.string val, true)
    | none => Except.ok (FlagValue.string f.Value, false)
  | Flag.int f =>
    match flagFromEnvOrFile inv f.EnvVars "" with
    | some val =>
      if val = "" then Except.ok (FlagValue.int f.Value, false)
      else
        match lib.ParseInt val with
        | some n => Except.ok (FlagValue.int n, true)
        | none => Except.error (RunError.flagParse f.Name val)
    | none => Except.ok (FlagValue.int f.Value, false)
  | Flag.stringSlice f =>
    match flagFromEnvOrFile inv f.EnvVars "" with
    | some val => Except.ok (FlagValue.stringSlice (lib.SplitEnv val) lib.EnvKept, true)
    | none => Except.ok (FlagValue.stringSlice f.Value false, false)

/-- The flags of a command applied in order to a context. -/
def applyFlags (lib : Lib) (inv : Invocation) : List Flag → Context → Except RunError Context
  | [], c => Except.ok c
  | f :: fs, c =>
    match f.resolve lib inv with
    | Except.error e => Except.error e
    | Except.ok r =>
      applyFlags lib inv fs
        { values := c.values ++ [(f.Name, r.1)],
          set := if r.2 then c.set ++ [f.Name] else c.set }

/-- One flag occurrence of the command line stored into the context: a string
or an int replaces the value, a string slice drops what it held when this is
its first command line value and then appends. -/
def setFlag (lib : Lib) (c : Context) (name value : String) : Except RunError Context :=
  match c.values.lookup name with
  | none => Except.error (RunError.flagNotDefined name)
  | some (FlagValue.string _) =>
    Except.ok { values := (name, FlagValue.string value) :: c.values, set := name :: c.set }
  | some (FlagValue.int _) =>
    match lib.ParseInt value with
    | some n => Except.ok { values := (name, FlagValue.int n) :: c.values, set := name :: c.set }
    | none => Except.error (RunError.flagParse name value)
  | some (FlagValue.stringSlice vs hasBeenSet) =>
    let kept := if hasBeenSet then vs else []
    Except.ok { values := (name, FlagValue.stringSlice (kept ++ lib.SplitArg value) true) :: c.values,
                set := name :: c.set }

/-- The flag occurrences of the command line stored in order. -/
def parseArgs (lib : Lib) : List (String × String) → Context → Except RunError Context
  | [], c => Except.ok c
  | a :: rest, c =>
    match setFlag lib c a.1 a.2 with
    | Except.error e => Except.error e
    | Except.ok c1 => parseArgs lib rest c1

/-- The library's `checkRequiredFlags`: the names of the flags declared
`Required` that have not been set. -/
def checkRequiredFlags (flags : List Flag) (c : Context) : List String :=
  (flags.filter (fun f => f.Required && !c.IsSet f.Name)).map Flag.Name

/-- The library's `Command.Run` for one invocation of the command. -/
def Command.Run (lib : Lib) (cmd : Command) (inv : Invocation) : RunResult :=
  match applyFlags lib inv cmd.Flags { values := [], set := [] } with
  | Except.error e => { effects := [], err := some e }
  | Except.ok c0 =>
    match parseArgs lib inv.args c0 with
    | Except.error e => { effects := [], err := some e }
    | Except.ok c =>
      match checkRequiredFlags cmd.Flags c with
      | [] => cmd.Action c
      | missing => { effects := [], err := some (RunError.requiredFlagsNotSet missing) }

/-- Splitting at commas, on the characters of a string. -/
def splitCommas : List Char → List Char → List (List Char)
  | acc, [] => [acc.reverse]
  | acc, c :: cs =>
    if c = ',' then acc.reverse :: splitCommas [] cs else splitCommas (c :: acc) cs

/-- Removal of the white space at both ends, on the characters of a string. -/
def trimSpace (cs : List Char) : List Char :=
  ((cs.dropWhile Char.isWhitespace).reverse.dropWhile Char.isWhitespace).reverse

/-- One instance of the library functions: decimal integers, environment
values split at commas and trimmed, command line values taken whole and
replacing the elements taken from the environment. -/
def stdLib : Lib :=
  { ParseInt := String.toInt?,
    SplitEnv := fun s => (splitCommas [] s.data).map (fun cs => String.mk (trimSpace cs)),
    SplitArg := fun s => [s],
    EnvKept := false }

/-- A stand-in for `server.Initialize`: its listen function serves until the
server is closed and returns that error. -/
def closedServer : InitializeArgs → String → Option String :=
  fun _ _ => some "http: Server closed"

/-! ## Properties of `ProxyResponseWriter` -/

theorem wrapInt_of_isInt (x : Int) (h : IsInt x) : wrapInt x = x := by
  unfold IsInt minInt maxInt at h
  unfold wrapInt intBits
  norm_num at h ⊢
  omega

theorem isInt_wrapInt (x : Int) : IsInt (wrapInt x) := by
  unfold IsInt minInt maxInt wrapInt intBits
  norm_num
  omega

theorem wrapInt_add_wrapInt (a b : Int) : wrapInt (wrapInt a + b) = wrapInt (a + b) := by
  unfold wrapInt intBits
  norm_num
  omega

variable {σ : Type}

theorem run_replies (rw : ResponseWriter σ) (calls : List Call) (brs : ProxyResponseWriter σ) :
    (brs.run rw calls).1 = (rw.run brs.parent calls).1 := by
  induction calls generalizing brs with
  | nil => rfl
  | cons c cs ih =>
    cases c <;> simp [ProxyResponseWriter.run, ResponseWriter.run, ProxyResponseWriter.call,
      ResponseWriter.call, ProxyResponseWriter.Header, ProxyResponseWriter.Write,
      ProxyResponseWriter.WriteHeader, ih]

theorem run_parent (rw : ResponseWriter σ) (calls : List Call) (brs : ProxyResponseWriter σ) :
    (brs.run rw calls).2.parent = (rw.run brs.parent calls).2 := by
  induction calls generalizing brs with
  | nil => rfl
  | cons c cs ih =>
    cases c <;> simp [ProxyResponseWriter.run, ResponseWriter.run, ProxyResponseWriter.call,
      ResponseWriter.call, ProxyResponseWriter.Header, ProxyResponseWriter.Write,
      ProxyResponseWriter.WriteHeader, ih]

theorem run_length (rw : ResponseWriter σ) (calls : List Call) (brs : ProxyResponseWriter σ) :
    wrapInt (brs.run rw calls).2.length
      = wrapInt (brs.length + (writeCounts (rw.run brs.parent calls).1).sum) := by
  induction calls generalizing brs with
  | nil => simp [ProxyResponseWriter.run, ResponseWriter.run, writeCounts]
  | cons c cs ih =>
    cases c with
    | Header =>
      simp [ProxyResponseWriter.run, ResponseWriter.run, ProxyResponseWriter.call,
        ResponseWriter.call, ProxyResponseWriter.Header, writeCounts, ih]
    | WriteHeader code =>
      simp [ProxyResponseWriter.run, ResponseWriter.run, ProxyResponseWriter.call,
        ResponseWriter.call, ProxyResponseWriter.WriteHeader, writeCounts, ih]
    | Write content =>
      simp [ProxyResponseWriter.run, ResponseWriter.run, ProxyResponseWriter.call,
        ResponseWriter.call, ProxyResponseWriter.Write, writeCounts, ih, addInt]
      rw [wrapInt_add_wrapInt, add_assoc]

theorem run_length_isInt (rw : ResponseWriter σ) (calls : List Call) (brs : ProxyResponseWriter σ)
    (h : IsInt brs.length) : IsInt (brs.run rw calls).2.length := by
  induction calls generalizing brs with
  | nil => simpa [ProxyResponseWriter.run] using h
  | cons c cs ih =>
    cases c with
    | Header => exact ih _ (by simpa [ProxyResponseWriter.call, ProxyResponseWriter.Header] using h)
    | WriteHeader code =>
      exact ih _ (by simpa [ProxyResponseWriter.call, ProxyResponseWriter.WriteHeader] using h)
    | Write content =>
      exact ih _ (by simpa [ProxyResponseWriter.call, ProxyResponseWriter.Write, addInt]
        using isInt_wrapInt _)

theorem run_code (rw : ResponseWriter σ) (calls : List Call) (brs : ProxyResponseWriter σ) :
    (brs.run rw calls).2.code = ((headerCodes calls).getLast?).getD brs.code := by
  induction calls generalizing brs with
  | nil => rfl
  | cons c cs ih =>
    cases c with
    | Header =>
      simp [ProxyResponseWriter.run, ProxyResponseWriter.call, ProxyResponseWriter.Header,
        headerCodes, ih]
    | Write content =>
      simp [ProxyResponseWriter.run, ProxyResponseWriter.call, ProxyResponseWriter.Write,
        headerCodes, ih]
    | WriteHeader code =>
      simp [ProxyResponseWriter.run, ProxyResponseWriter.call, ProxyResponseWriter.WriteHeader,
        headerCodes, ih]
      cases h : headerCodes cs with
      | nil => simp
      | cons a as => simp [List.getLast?]

theorem recording_call (rw : ResponseWriter σ) (c : Call) (s : σ) (log : List Call) :
    ((recording rw).call (s, log) c).2 = ((rw.call s c).2, log ++ [c]) := by
  cases c <;> rfl

theorem recording_run (rw : ResponseWriter σ) (calls : List Call) (s : σ) (log : List Call) :
    ((recording rw).run (s, log) calls).2.2 = log ++ calls := by
  induction calls generalizing s log with
  | nil => simp [ResponseWriter.run]
  | cons c cs ih =>
    simp [ResponseWriter.run, recording_call, ih]

theorem oneShot_single_byte_counts (n : Nat) (s : OneShot) :
    writeCounts (oneShot.run s (List.replicate n (Call.Write [0]))).1 = List.replicate n 1 := by
  induction n generalizing s with
  | zero => rfl
  | succ k ih =>
    simp [List.replicate_succ, ResponseWriter.run, ResponseWriter.call, writeCounts, ih]
    rfl

theorem new_run_length (rw : ResponseWriter σ) (res : σ) (calls : List Call) :
    ((NewProxyResponseWriter res).run rw calls).2.length
      = wrapInt (writeCounts (rw.run res calls).1).sum := by
  have h0 : IsInt (NewProxyResponseWriter res).length := by
    simp [NewProxyResponseWriter, IsInt, minInt, maxInt]
  have h1 := run_length rw calls (NewProxyResponseWriter res)
  rw [wrapInt_of_isInt _ (run_length_isInt rw calls _ h0)] at h1
  simpa [NewProxyResponseWriter] using h1

theorem oneShot_single_byte_length (n : Nat) :
    ((NewProxyResponseWriter (OneShot.mk none [])).run oneShot
        (List.replicate n (Call.Write [0]))).2.length = wrapInt n := by
  rw [new_run_length, oneShot_single_byte_counts, List.sum_replicate]
  simp

/-- C1: after any sequence of calls on a proxy made by `NewProxyResponseWriter`,
`length` is the sum, in Go's `int`, of the counts the wrapped writer returned
from its `Write` calls (short counts and counts returned with an error
included, whatever `len(content)` was); it is the exact sum whenever that sum
is a value of `int`. -/
theorem length_eq_sum_of_write_counts (rw : ResponseWriter σ) (res : σ) (calls : List Call) :
    ((NewProxyResponseWriter res).run rw calls).2.length
        = wrapInt (writeCounts (rw.run res calls).1).sum
      ∧ (IsInt (writeCounts (rw.run res calls).1).sum →
          ((NewProxyResponseWriter res).run rw calls).2.length
            = (writeCounts (rw.run res calls).1).sum) := by
  refine ⟨new_run_length rw res calls, fun h => ?_⟩
  rw [new_run_length, wrapInt_of_isInt _ h]

/-- C2: `Write` on the proxy returns exactly the pair `(count, error)` the
wrapped writer returned for the same bytes, error included, and leaves the
wrapped writer in the state one `Write` of these bytes puts it in; a wrapped
writer that records its calls has received exactly one more call, `Write` with
the same bytes; and over any call sequence the proxy returns the replies the
wrapped writer gives when called directly. -/
theorem write_pass_through (rw : ResponseWriter σ) (brs : ProxyResponseWriter σ)
    (log : List Call) (content : List UInt8) (calls : List Call) :
    (brs.Write rw content).1 = (rw.Write brs.parent content).1
      ∧ (brs.Write rw content).2.parent = (rw.Write brs.parent content).2
      ∧ (ProxyResponseWriter.Write (recording rw)
          { code := brs.code, length := brs.length, parent := (brs.parent, log) } content).2.parent.2
          = log ++ [Call.Write content]
      ∧ (ProxyResponseWriter.Write (recording rw)
          { code := brs.code, length := brs.length, parent := (brs.parent, log) } content).1
          = (rw.Write brs.parent content).1
      ∧ (brs.run rw calls).1 = (rw.run brs.parent calls).1
      ∧ (brs.run rw calls).2.parent = (rw.run brs.parent calls).2 :=
  ⟨rfl, rfl, rfl, rfl, run_replies rw calls brs, run_parent rw calls brs⟩

/-- C3: when a call sequence on the proxy has at least one `WriteHeader`, the
`code` field afterwards is the argument of the last one, and a wrapped writer
that records its calls has received exactly the calls made on the proxy, each
once and in the same order (so every `WriteHeader` with its code). -/
theorem last_WriteHeader_wins (rw : ResponseWriter σ) (brs : ProxyResponseWriter σ)
    (log : List Call) (calls : List Call) (code : Int)
    (h : (headerCodes calls).getLast? = some code) :
    (brs.run rw calls).2.code = code
      ∧ (ProxyResponseWriter.run (recording rw)
          { code := brs.code, length := brs.length, parent := (brs.parent, log) } calls).2.parent.2
          = log ++ calls
      ∧ headerCodes (ProxyResponseWriter.run (recording rw)
          { code := brs.code, length := brs.length, parent := (brs.parent, []) } calls).2.parent.2
          = headerCodes calls := by
  refine ⟨?_, ?_, ?_⟩
  · rw [run_code, h]; rfl
  · rw [run_parent]; exact recording_run rw calls brs.parent log
  · rw [run_parent]
    have := recording_run rw calls brs.parent []
    simp only [List.nil_append] at this
    rw [this]

/-- Witness for C3: `WriteHeader(200)`, a `Write`, then `WriteHeader(500)` on a
one-shot writer. -/
theorem last_WriteHeader_wins_witness :
    (headerCodes [Call.WriteHeader 200, Call.Write [104, 105], Call.WriteHeader 500]).getLast?
        = some 500
      ∧ ((NewProxyResponseWriter (OneShot.mk none [])).run oneShot
          [Call.WriteHeader 200, Call.Write [104, 105], Call.WriteHeader 500]).2.code = 500 :=
  ⟨by decide,
   (last_WriteHeader_wins oneShot (NewProxyResponseWriter (OneShot.mk none [])) []
      [Call.WriteHeader 200, Call.Write [104, 105], Call.WriteHeader 500] 500 (by decide)).1⟩

/-- C9, as stated, fails: with a wrapped writer that reports the count -1 the
length drops from 0 to -1 on the first `Write`; and with a writer that accepts
every byte, the `Write` number 2 ^ 63 of one byte takes the length from the
largest `int` to the smallest. -/
theorem length_can_decrease :
    ((NewProxyResponseWriter ()).run negativeCount [Call.Write [0]]).2.length
        < (NewProxyResponseWriter ()).length
      ∧ ((NewProxyResponseWriter (OneShot.mk none [])).run oneShot
            (List.replicate (2 ^ 63 - 1) (Call.Write [0]))).2.length = maxInt
      ∧ ((NewProxyResponseWriter (OneShot.mk none [])).run oneShot
            (List.replicate (2 ^ 63) (Call.Write [0]))).2.length = minInt := by
  refine ⟨by decide, ?_, ?_⟩
  · exact (oneShot_single_byte_length _).trans (by norm_num [wrapInt, intBits, maxInt])
  · exact (oneShot_single_byte_length _).trans (by norm_num [wrapInt, intBits, minInt])

/-- C9, amended: a new proxy has length 0, and a call on a proxy whose length
is a value of `int` does not lower the length, provided that the count the
wrapped writer returns, when the call is a `Write`, is not negative and does
not take the length past the largest `int`. -/
theorem length_nondecreasing_of_valid_counts (rw : ResponseWriter σ)
    (brs : ProxyResponseWriter σ) (c : Call) (hlen : IsInt brs.length)
    (hcount : ∀ n err, (rw.call brs.parent c).1 = Reply.Write n err →
      0 ≤ n ∧ brs.length + n ≤ maxInt) :
    (NewProxyResponseWriter brs.parent).length = 0
      ∧ brs.length ≤ (brs.call rw c).2.length
      ∧ IsInt (brs.call rw c).2.length := by
  refine ⟨rfl, ?_⟩
  cases c with
  | Header => exact ⟨le_refl _, hlen⟩
  | WriteHeader code => exact ⟨le_refl _, hlen⟩
  | Write content =>
    have h := hcount _ _ rfl
    have hfit : IsInt (brs.length + (rw.Write brs.parent content).1.1) :=
      ⟨le_trans hlen.1 (by linarith [h.1]), h.2⟩
    simp only [ProxyResponseWriter.call, ProxyResponseWriter.Write, addInt]
    rw [wrapInt_of_isInt _ hfit]
    exact ⟨by linarith [h.1], hfit⟩

/-- Witness for C9, amended: one `Write` of three bytes on a new proxy over a
one-shot writer. -/
theorem length_nondecreasing_of_valid_counts_witness :
    IsInt (NewProxyResponseWriter (OneShot.mk none [])).length
      ∧ (NewProxyResponseWriter (OneShot.mk none [])).length
          ≤ ((NewProxyResponseWriter (OneShot.mk none [])).call oneShot
              (Call.Write [1, 2, 3])).2.length :=
  ⟨by decide,
   (length_nondecreasing_of_valid_counts oneShot (NewProxyResponseWriter (OneShot.mk none []))
      (Call.Write [1, 2, 3]) (by decide)
      (by
        intro n err h
        simp [ResponseWriter.call, oneShot, NewProxyResponseWriter] at h
        rw [← h.1]
        decide)).2.1⟩

/-- C10: over a writer with one-shot status semantics the recorded code can
differ from the status sent: after `WriteHeader(200)` then `WriteHeader(500)`,
and after a `Write` then `WriteHeader(500)`, the proxy records 500 while the
wrapped writer sent 200. -/
theorem recorded_code_differs_from_sent_status :
    (((NewProxyResponseWriter (OneShot.mk none [])).run oneShot
          [Call.WriteHeader 200, Call.WriteHeader 500]).2.code = 500
        ∧ ((NewProxyResponseWriter (OneShot.mk none [])).run oneShot
          [Call.WriteHeader 200, Call.WriteHeader 500]).2.parent.sent = some 200)
      ∧ (((NewProxyResponseWriter (OneShot.mk none [])).run oneShot
          [Call.Write [111, 107], Call.WriteHeader 500]).2.code = 500
        ∧ ((NewProxyResponseWriter (OneShot.mk none [])).run oneShot
          [Call.Write [111, 107], Call.WriteHeader 500]).2.parent.sent = some 200) := by
  decide

/-! ## Properties of `AccessLog` -/

theorem serve_eq_run (rw : ResponseWriter σ) (script : Script) (w : ProxyResponseWriter σ)
    (p : Proc) :
    (script.serve rw w p).wrapper = (w.run rw (script.serve rw w p).calls).2 := by
  induction script generalizing w p with
  | Return => rfl
  | Header k ih =>
    simp only [Script.serve, ProxyResponseWriter.run, ProxyResponseWriter.call]
    exact ih _ _ _
  | Write content k ih =>
    simp only [Script.serve, ProxyResponseWriter.run, ProxyResponseWriter.call]
    exact ih _ _ _ _
  | WriteHeader code k ih =>
    simp only [Script.serve, ProxyResponseWriter.run, ProxyResponseWriter.call]
    exact ih _ _
  | Log e k ih =>
    simp only [Script.serve]
    exact ih _ _

theorem serve_sink (rw : ResponseWriter σ) (script : Script) (w : ProxyResponseWriter σ)
    (p : Proc) : ∃ logged, (script.serve rw w p).proc.sink = p.sink ++ logged := by
  induction script generalizing w p with
  | Return => exact ⟨[], by simp [Script.serve]⟩
  | Header k ih => exact ih _ _ _
  | Write content k ih => exact ih _ _ _ _
  | WriteHeader code k ih => exact ih _ _
  | Log e k ih =>
    obtain ⟨l, hl⟩ := ih w (p.Send e)
    exact ⟨e :: l, by simp only [Script.serve]; rw [hl]; simp [Proc.Send]⟩

theorem writeCounts_nil_of_no_write (rw : ResponseWriter σ) (calls : List Call) (s : σ)
    (h : writeContents calls = []) : writeCounts (rw.run s calls).1 = [] := by
  induction calls generalizing s with
  | nil => rfl
  | cons c cs ih =>
    cases c with
    | Header => simpa [ResponseWriter.run, ResponseWriter.call, writeCounts] using ih _ h
    | WriteHeader code => simpa [ResponseWriter.run, ResponseWriter.call, writeCounts] using ih _ h
    | Write content => simp [writeContents] at h

theorem accessLog_sink (next : Handler) (rw : ResponseWriter σ) (res : σ) (req : Request)
    (p : Proc) :
    (AccessLog next rw res req p).2.sink
      = (captured next rw res req p).proc.sink
        ++ [accessRecord req (captured next rw res req p).wrapper
              (timeSub ((captured next rw res req p).proc.Now).1 p.Now.1)] := rfl

theorem accessRecord_code (req : Request) (w : ProxyResponseWriter σ) (elapsed : Int) :
    (accessRecord req w elapsed).field "code" = some (FieldValue.Int w.code) := by
  simp [accessRecord, Event.field, Event.Str, Event.Int, Event.Int64, logInfo, List.lookup]

theorem accessRecord_length (req : Request) (w : ProxyResponseWriter σ) (elapsed : Int) :
    (accessRecord req w elapsed).field "length" = some (FieldValue.Int w.length) := by
  simp [accessRecord, Event.field, Event.Str, Event.Int, Event.Int64, logInfo, List.lookup]

theorem accessRecord_method (req : Request) (w : ProxyResponseWriter σ) (elapsed : Int) :
    (accessRecord req w elapsed).field "method" = some (FieldValue.Str req.Method) := by
  simp [accessRecord, Event.field, Event.Str, Event.Int, Event.Int64, logInfo, List.lookup]

theorem accessRecord_url (req : Request) (w : ProxyResponseWriter σ) (elapsed : Int) :
    (accessRecord req w elapsed).field "url" = some (FieldValue.Str req.URL.String) := by
  simp [accessRecord, Event.field, Event.Str, Event.Int, Event.Int64, logInfo, List.lookup]

theorem accessRecord_referer (req : Request) (w : ProxyResponseWriter σ) (elapsed : Int) :
    (accessRecord req w elapsed).field "referer"
      = some (FieldValue.Str (req.Header.Get "Referer")) := by
  simp [accessRecord, Event.field, Event.Str, Event.Int, Event.Int64, logInfo, List.lookup]

theorem accessRecord_useragent (req : Request) (w : ProxyResponseWriter σ) (elapsed : Int) :
    (accessRecord req w elapsed).field "useragent"
      = some (FieldValue.Str (req.Header.Get "User-Agent")) := by
  simp [accessRecord, Event.field, Event.Str, Event.Int, Event.Int64, logInfo, List.lookup]

theorem get_of_present (h : HttpHeader) (key v : String) (vs : List String)
    (hk : CanonicalMIMEHeaderKey key = key) (hp : h.lookup key = some (v :: vs)) :
    h.Get key = v := by
  simp [HttpHeader.Get, hk, hp]

theorem get_of_absent (h : HttpHeader) (key : String)
    (hk : CanonicalMIMEHeaderKey key = key) (hp : h.lookup key = none) :
    h.Get key = "" := by
  simp [HttpHeader.Get, hk, hp]

/-- C4: when the downstream handler makes no `WriteHeader` call, the record
`AccessLog` emits has code 200, and when it also makes no `Write` call the
record has length 0; a new proxy has code 200 and length 0. -/
theorem default_code_and_length (next : Handler) (rw : ResponseWriter σ) (res : σ)
    (req : Request) (p : Proc)
    (h : headerCodes (captured next rw res req p).calls = []) :
    (NewProxyResponseWriter res).code = 200 ∧ (NewProxyResponseWriter res).length = 0
      ∧ ∃ record, (AccessLog next rw res req p).2.sink
            = (captured next rw res req p).proc.sink ++ [record]
          ∧ record.field "code" = some (FieldValue.Int 200)
          ∧ (writeContents (captured next rw res req p).calls = [] →
              record.field "length" = some (FieldValue.Int 0)) := by
  refine ⟨rfl, rfl, _, accessLog_sink next rw res req p, ?_, ?_⟩
  · rw [accessRecord_code, captured, serve_eq_run, run_code]
    rw [captured] at h
    rw [h]
    rfl
  · intro hw
    rw [accessRecord_length, captured, serve_eq_run, new_run_length]
    rw [captured] at hw
    rw [writeCounts_nil_of_no_write rw _ res hw]
    rfl

/-- Witness for C4: a handler that only writes a body, over a one-shot writer. -/
theorem default_code_and_length_witness :
    headerCodes (captured bodyOnlyHandler oneShot (OneShot.mk none []) healthzRequest
        startProc).calls = []
      ∧ ∃ record, (AccessLog bodyOnlyHandler oneShot (OneShot.mk none []) healthzRequest
            startProc).2.sink = [record]
          ∧ record.field "code" = some (FieldValue.Int 200) :=
  ⟨by decide,
   (default_code_and_length bodyOnlyHandler oneShot (OneShot.mk none []) healthzRequest
      startProc (by decide)).2.2.imp (fun _ hr => ⟨hr.1, hr.2.1⟩)⟩

/-- C5: for every request and every downstream handler that returns, the
handler made by `AccessLog` adds exactly one record to the log, after
everything the downstream handler logged; its code and length are those of the
proxy when the downstream handler returned, its method and url those of the
request. In the scenario `GET /healthz`, status 204 and 42 bytes accepted, the
record has code 204, length 42, method GET and url /healthz. -/
theorem one_record_after_handler (next : Handler) (rw : ResponseWriter σ) (res : σ)
    (req : Request) (p : Proc) :
    (∃ logged record, (captured next rw res req p).proc.sink = p.sink ++ logged
          ∧ (AccessLog next rw res req p).2.sink = p.sink ++ logged ++ [record]
          ∧ record.field "code" = some (FieldValue.Int (captured next rw res req p).wrapper.code)
          ∧ record.field "length"
              = some (FieldValue.Int (captured next rw res req p).wrapper.length)
          ∧ record.field "method" = some (FieldValue.Str req.Method)
          ∧ record.field "url" = some (FieldValue.Str req.URL.String))
      ∧ (AccessLog next rw res req p).1 = (captured next rw res req p).wrapper.parent
      ∧ (∃ record, (AccessLog healthzHandler oneShot (OneShot.mk none []) healthzRequest
              startProc).2.sink = [record]
          ∧ record.field "code" = some (FieldValue.Int 204)
          ∧ record.field "length" = some (FieldValue.Int 42)
          ∧ record.field "method" = some (FieldValue.Str "GET")
          ∧ record.field "url" = some (FieldValue.Str "/healthz")) := by
  obtain ⟨logged, hl⟩ := serve_sink rw (next req) (NewProxyResponseWriter res) p.Now.2
  refine ⟨⟨logged, accessRecord req (captured next rw res req p).wrapper
      (timeSub ((captured next rw res req p).proc.Now).1 p.Now.1), hl, ?_, accessRecord_code _ _ _,
    accessRecord_length _ _ _, accessRecord_method _ _ _, accessRecord_url _ _ _⟩, rfl, ?_⟩
  · rw [accessLog_sink, captured, hl]; rfl
  · exact ⟨_, accessLog_sink _ _ _ _ _, by decide, by decide, by decide, by decide⟩

/-- C7: the record `AccessLog` emits always has the fields referer and
useragent, each a string: the first value of the `Referer` (`User-Agent`)
header of the request when the header is present, the empty string when it is
absent. -/
theorem referer_and_useragent_fields (next : Handler) (rw : ResponseWriter σ) (res : σ)
    (req : Request) (p : Proc) :
    ∃ record referer useragent, (AccessLog next rw res req p).2.sink
          = (captured next rw res req p).proc.sink ++ [record]
        ∧ record.field "referer" = some (FieldValue.Str referer)
        ∧ (∀ v vs, req.Header.lookup "Referer" = some (v :: vs) → referer = v)
        ∧ (req.Header.lookup "Referer" = none → referer = "")
        ∧ record.field "useragent" = some (FieldValue.Str useragent)
        ∧ (∀ v vs, req.Header.lookup "User-Agent" = some (v :: vs) → useragent = v)
        ∧ (req.Header.lookup "User-Agent" = none → useragent = "") := by
  refine ⟨_, _, _, accessLog_sink next rw res req p, accessRecord_referer _ _ _, ?_, ?_,
    accessRecord_useragent _ _ _, ?_, ?_⟩
  · intro v vs h
    exact get_of_present _ _ _ _ (by decide) h
  · intro h
    exact get_of_absent _ _ (by decide) h
  · intro v vs h
    exact get_of_present _ _ _ _ (by decide) h
  · intro h
    exact get_of_absent _ _ (by decide) h

/-! ## Properties of the `server` command -/

theorem applyFlags_persist (lib : Lib) (inv : Invocation) (fs : List Flag) (c c1 : Context)
    (name : String) (v : FlagValue) (h : applyFlags lib inv fs c = Except.ok c1)
    (hv : c.values.lookup name = some v) : c1.values.lookup name = some v := by
  induction fs generalizing c with
  | nil =>
    simp only [applyFlags, Except.ok.injEq] at h
    rw [← h]; exact hv
  | cons f fs ih =>
    simp only [applyFlags] at h
    cases hr : f.resolve lib inv with
    | error e => rw [hr] at h; cases h
    | ok r =>
      rw [hr] at h
      exact ih _ h (by simp [List.lookup_append, hv])

theorem applyFlags_lookup (lib : Lib) (inv : Invocation) (fs : List Flag) (c c1 : Context)
    (name : String) (h : applyFlags lib inv fs c = Except.ok c1)
    (hv : c.values.lookup name = none) :
    c1.values.lookup name
      = (fs.find? (fun f => f.Name == name)).bind
          (fun f => (f.resolve lib inv).toOption.map Prod.fst) := by
  induction fs generalizing c with
  | nil =>
    simp only [applyFlags, Except.ok.injEq] at h
    rw [← h]; simpa using hv
  | cons f fs ih =>
    simp only [applyFlags] at h
    cases hr : f.resolve lib inv with
    | error e => rw [hr] at h; cases h
    | ok r =>
      rw [hr] at h
      by_cases hn : f.Name = name
      · have := applyFlags_persist lib inv fs _ c1 name r.1 h
          (by simp [List.lookup_append, hv, hn, List.lookup])
        simp [List.find?, hn, hr, this, Except.toOption]
      · have hne : (f.Name == name) = false := by simpa using hn
        have hne2 : (name == f.Name) = false := by simpa using fun h => hn h.symm
        rw [ih _ h (by simp [List.lookup_append, hv, List.lookup, hne2])]
        simp [List.find?, hne]

theorem applyFlags_set (lib : Lib) (inv : Invocation) (fs : List Flag) (c c1 : Context)
    (name : String) (h : applyFlags lib inv fs c = Except.ok c1) (hm : name ∈ c1.set) :
    name ∈ c.set
      ∨ ∃ f ∈ fs, f.Name = name ∧ ∃ r, f.resolve lib inv = Except.ok r ∧ r.2 = true := by
  induction fs generalizing c with
  | nil =>
    simp only [applyFlags, Except.ok.injEq] at h
    rw [← h] at hm; exact Or.inl hm
  | cons f fs ih =>
    simp only [applyFlags] at h
    cases hr : f.resolve lib inv with
    | error e => rw [hr] at h; cases h
    | ok r =>
      rw [hr] at h
      rcases ih _ h with h1 | ⟨g, hg, hgn, hgr⟩
      · by_cases hb : r.2 = true
        · simp only [hb, if_true, List.mem_append, List.mem_singleton] at h1
          rcases h1 with h1 | h1
          · exact Or.inl h1
          · exact Or.inr ⟨f, List.mem_cons_self _ _, h1.symm, r, hr, hb⟩
        · simp only [hb] at h1
          exact Or.inl h1
      · exact Or.inr ⟨g, List.mem_cons_of_mem _ hg, hgn, hgr⟩

theorem setFlag_set (lib : Lib) (c c1 : Context) (name value : String)
    (h : setFlag lib c name value = Except.ok c1) :
    c1.set = name :: c.set ∧ ∃ v, c1.values = (name, v) :: c.values := by
  unfold setFlag at h
  split at h
  · cases h
  · simp only [Except.ok.injEq] at h
    rw [← h]; exact ⟨rfl, _, rfl⟩
  · split at h
    · simp only [Except.ok.injEq] at h
      rw [← h]; exact ⟨rfl, _, rfl⟩
    · cases h
  · simp only [Except.ok.injEq] at h
    rw [← h]; exact ⟨rfl, _, rfl⟩

theorem parseArgs_set (lib : Lib) (args : List (String × String)) (c c1 : Context)
    (name : String) (h : parseArgs lib args c = Except.ok c1) (hm : name ∈ c1.set) :
    name ∈ c.set ∨ name ∈ args.map Prod.fst := by
  induction args generalizing c with
  | nil =>
    simp only [parseArgs, Except.ok.injEq] at h
    rw [← h] at hm; exact Or.inl hm
  | cons a rest ih =>
    simp only [parseArgs] at h
    cases hs : setFlag lib c a.1 a.2 with
    | error e => rw [hs] at h; cases h
    | ok c2 =>
      rw [hs] at h
      rcases ih _ h with h1 | h1
      · rw [(setFlag_set lib c c2 _ _ hs).1] at h1
        rcases List.mem_cons.1 h1 with h2 | h2
        · exact Or.inr (by simp [h2])
        · exact Or.inl h2
      · exact Or.inr (by simp only [List.map_cons, List.mem_cons]; exact Or.inr h1)

theorem parseArgs_lookup (lib : Lib) (args : List (String × String)) (c c1 : Context)
    (name : String) (h : parseArgs lib args c = Except.ok c1)
    (hn : name ∉ args.map Prod.fst) : c1.values.lookup name = c.values.lookup name := by
  induction args generalizing c with
  | nil =>
    simp only [parseArgs, Except.ok.injEq] at h
    rw [← h]
  | cons a rest ih =>
    simp only [parseArgs] at h
    simp only [List.map_cons, List.mem_cons, not_or] at hn
    cases hs : setFlag lib c a.1 a.2 with
    | error e => rw [hs] at h; cases h
    | ok c2 =>
      rw [hs] at h
      rw [ih _ h hn.2]
      obtain ⟨v, hv⟩ := (setFlag_set lib c c2 _ _ hs).2
      have hne : (name == a.1) = false := by simpa using hn.1
      rw [hv, List.lookup_cons, hne]

theorem bind_dn_not_set (lib : Lib) (inv : Invocation) (c0 c : Context)
    (hargs : "bind-dn" ∉ inv.args.map Prod.fst) (henv : inv.env.lookup "LDAP_BINDDN" = none)
    (h0 : applyFlags lib inv serverFlags { values := [], set := [] } = Except.ok c0)
    (h1 : parseArgs lib inv.args c0 = Except.ok c) : c.IsSet "bind-dn" = false := by
  by_contra hset
  have hm : "bind-dn" ∈ c.set := by simpa [Context.IsSet] using hset
  rcases parseArgs_set lib _ _ _ _ h1 hm with h2 | h2
  · rcases applyFlags_set lib inv _ _ _ _ h0 h2 with h3 | ⟨f, hf, hname, r, hr, hr2⟩
    · simp at h3
    · simp only [serverFlags, List.mem_cons, List.mem_singleton, List.not_mem_nil, or_false] at hf
      rcases hf with rfl | rfl | rfl | rfl | rfl | rfl | rfl | rfl | rfl | rfl <;>
        simp [Flag.Name] at hname
      simp [Flag.resolve, flagFromEnvOrFile, henv] at hr
      rw [← hr] at hr2
      simp at hr2
  · exact hargs h2

theorem resolve_error (lib : Lib) (inv : Invocation) (f : Flag) (e : RunError)
    (h : f.resolve lib inv = Except.error e) : ∀ msg, e ≠ RunError.listen msg := by
  intro msg hmsg
  subst hmsg
  cases f with
  | string f => simp only [Flag.resolve] at h; split at h <;> cases h
  | int f =>
    simp only [Flag.resolve] at h
    split at h
    · split at h
      · cases h
      · split at h <;> cases h
    · cases h
  | stringSlice f => simp only [Flag.resolve] at h; split at h <;> cases h

theorem applyFlags_error (lib : Lib) (inv : Invocation) (fs : List Flag) (c : Context)
    (e : RunError) (h : applyFlags lib inv fs c = Except.error e) :
    ∀ msg, e ≠ RunError.listen msg := by
  induction fs generalizing c with
  | nil => cases h
  | cons f fs ih =>
    simp only [applyFlags] at h
    cases hr : f.resolve lib inv with
    | error e1 =>
      rw [hr] at h
      simp only [Except.error.injEq] at h
      subst h
      exact resolve_error lib inv f _ hr
    | ok r =>
      rw [hr] at h
      exact ih _ h

theorem setFlag_error (lib : Lib) (c : Context) (name value : String) (e : RunError)
    (h : setFlag lib c name value = Except.error e) : ∀ msg, e ≠ RunError.listen msg := by
  intro msg hmsg
  subst hmsg
  unfold setFlag at h
  split at h
  · cases h
  · cases h
  · split at h <;> cases h
  · cases h

theorem parseArgs_error (lib : Lib) (args : List (String × String)) (c : Context)
    (e : RunError) (h : parseArgs lib args c = Except.error e) :
    ∀ msg, e ≠ RunError.listen msg := by
  induction args generalizing c with
  | nil => cases h
  | cons a rest ih =>
    simp only [parseArgs] at h
    cases hs : setFlag lib c a.1 a.2 with
    | error e1 =>
      rw [hs] at h
      simp only [Except.error.injEq] at h
      subst h
      exact setFlag_error lib c _ _ _ hs
    | ok c2 =>
      rw [hs] at h
      exact ih _ h

/-- C6, as stated, fails: with `bind-dn` given and no bind credentials anywhere,
and with `LDAP_BINDDN` set to the empty string, the command calls
`server.Initialize` with an empty `bindPassword` (and, in the second case, an
empty `bindDN`) and invokes the listen function. -/
theorem empty_bind_settings_reach_listen :
    ((getServerCmd closedServer).Run stdLib
        { args := [("bind-dn", "cn=admin,dc=example,dc=org")], env := [], files := [] }).effects
      = [Effect.Initialize
            { ldapURL := "ldap://localhost", bindDN := "cn=admin,dc=example,dc=org",
              bindPassword := "", searchBase := "", searchScope := "sub",
              searchFilter := "(&(objectClass=inetOrgPerson)(uid=%s))",
              memberOfProperty := "ismemberof", searchAttributes := ["uid", "dn", "cn"] },
         Effect.Listen ":3000"]
    ∧ ((getServerCmd closedServer).Run stdLib
        { args := [], env := [("LDAP_BINDDN", "")], files := [] }).effects
      = [Effect.Initialize
            { ldapURL := "ldap://localhost", bindDN := "",
              bindPassword := "", searchBase := "", searchScope := "sub",
              searchFilter := "(&(objectClass=inetOrgPerson)(uid=%s))",
              memberOfProperty := "ismemberof", searchAttributes := ["uid", "dn", "cn"] },
         Effect.Listen ":3000"] := by
  constructor <;> decide

/-- C6, amended: when `bind-dn` is not set at all (no `--bind-dn` on the command
line and no `LDAP_BINDDN` in the environment), running the command makes no
call of `server.Initialize` or of a listen function and returns an error that
is a configuration error (not an error of listening). -/
theorem bind_dn_unset_fails_before_listen (lib : Lib)
    (Initialize : InitializeArgs → String → Option String) (inv : Invocation)
    (hargs : "bind-dn" ∉ inv.args.map Prod.fst) (henv : inv.env.lookup "LDAP_BINDDN" = none) :
    ((getServerCmd Initialize).Run lib inv).effects = []
      ∧ ∃ e, ((getServerCmd Initialize).Run lib inv).err = some e
          ∧ ∀ msg, e ≠ RunError.listen msg := by
  unfold Command.Run
  simp only [getServerCmd]
  cases h0 : applyFlags lib inv serverFlags { values := [], set := [] } with
  | error e =>
    exact ⟨rfl, e, rfl, applyFlags_error lib inv _ _ e h0⟩
  | ok c0 =>
    simp only
    cases h1 : parseArgs lib inv.args c0 with
    | error e =>
      exact ⟨rfl, e, rfl, parseArgs_error lib _ _ e h1⟩
    | ok c =>
      have hset := bind_dn_not_set lib inv c0 c hargs henv h0 h1
      have hreq : checkRequiredFlags serverFlags c = ["bind-dn"] := by
        simp [checkRequiredFlags, serverFlags, Flag.Required, Flag.Name, hset]
      dsimp only
      rw [hreq]
      exact ⟨rfl, _, rfl, fun msg h => by cases h⟩

/-- Witness for C6, amended: an invocation with only `--port 8080`. -/
theorem bind_dn_unset_fails_before_listen_witness :
    "bind-dn" ∉ ([("port", "8080")] : List (String × String)).map Prod.fst
      ∧ ([] : List (String × String)).lookup "LDAP_BINDDN" = none
      ∧ ((getServerCmd closedServer).Run stdLib
          { args := [("port", "8080")], env := [], files := [] }).effects = [] :=
  ⟨by decide, by decide,
   (bind_dn_unset_fails_before_listen stdLib closedServer
      { args := [("port", "8080")], env := [], files := [] } (by decide) (by decide)).1⟩

theorem search_attributes_default (lib : Lib) (inv : Invocation) (c0 c : Context)
    (hargs : "search-attributes" ∉ inv.args.map Prod.fst)
    (henv : inv.env.lookup "LDAP_USER_SEARCHATTR" = none)
    (h0 : applyFlags lib inv serverFlags { values := [], set := [] } = Except.ok c0)
    (h1 : parseArgs lib inv.args c0 = Except.ok c) :
    c.StringSlice "search-attributes" = ["uid", "dn", "cn"] := by
  have h2 := parseArgs_lookup lib _ _ _ _ h1 hargs
  have h3 := applyFlags_lookup lib inv _ _ _ "search-attributes" h0 rfl
  have h4 : serverFlags.find? (fun f => f.Name == "search-attributes")
      = some (Flag.stringSlice { Name := "search-attributes", Value := ["uid", "dn", "cn"],
                                 EnvVars := ["LDAP_USER_SEARCHATTR"] }) := by
    decide
  rw [h4] at h3
  simp [Flag.resolve, flagFromEnvOrFile, henv, Except.toOption] at h3
  simp [Context.StringSlice, h2, h3]

/-- C8, as stated, fails: with `--search-attributes mail` on the command line
the list passed to `server.Initialize` is `mail` alone, and with
`LDAP_USER_SEARCHATTR` set to `mail, memberOf` it is these two; uid, dn and cn
are in neither. -/
theorem supplied_search_attributes_replace_default :
    (((getServerCmd closedServer).Run stdLib
        { args := [("bind-dn", "cn=admin,dc=example,dc=org"), ("search-attributes", "mail")],
          env := [], files := [] }).effects
      = [Effect.Initialize
            { ldapURL := "ldap://localhost", bindDN := "cn=admin,dc=example,dc=org",
              bindPassword := "", searchBase := "", searchScope := "sub",
              searchFilter := "(&(objectClass=inetOrgPerson)(uid=%s))",
              memberOfProperty := "ismemberof", searchAttributes := ["mail"] },
         Effect.Listen ":3000"]
      ∧ "uid" ∉ ["mail"] ∧ "dn" ∉ ["mail"] ∧ "cn" ∉ ["mail"])
    ∧ (((getServerCmd closedServer).Run stdLib
        { args := [("bind-dn", "cn=admin,dc=example,dc=org")],
          env := [("LDAP_USER_SEARCHATTR", "mail, memberOf")], files := [] }).effects
      = [Effect.Initialize
            { ldapURL := "ldap://localhost", bindDN := "cn=admin,dc=example,dc=org",
              bindPassword := "", searchBase := "", searchScope := "sub",
              searchFilter := "(&(objectClass=inetOrgPerson)(uid=%s))",
              memberOfProperty := "ismemberof", searchAttributes := ["mail", "memberOf"] },
         Effect.Listen ":3000"]
      ∧ "uid" ∉ ["mail", "memberOf"] ∧ "dn" ∉ ["mail", "memberOf"]
      ∧ "cn" ∉ ["mail", "memberOf"]) := by
  refine ⟨⟨by decide, by decide, by decide, by decide⟩,
    ⟨by decide, by decide, by decide, by decide⟩⟩

/-- C8, amended: when the operator supplies no search attributes (no
`--search-attributes` on the command line and no `LDAP_USER_SEARCHATTR` in the
environment), every call of `server.Initialize` the command makes receives
exactly the list uid, dn, cn. -/
theorem default_search_attributes_passed (lib : Lib)
    (Initialize : InitializeArgs → String → Option String) (inv : Invocation)
    (hargs : "search-attributes" ∉ inv.args.map Prod.fst)
    (henv : inv.env.lookup "LDAP_USER_SEARCHATTR" = none) :
    ∀ args, Effect.Initialize args ∈ ((getServerCmd Initialize).Run lib inv).effects →
      args.searchAttributes = ["uid", "dn", "cn"] := by
  intro args hmem
  unfold Command.Run at hmem
  simp only [getServerCmd] at hmem
  cases h0 : applyFlags lib inv serverFlags { values := [], set := [] } with
  | error e => rw [h0] at hmem; simp at hmem
  | ok c0 =>
    rw [h0] at hmem
    simp only at hmem
    cases h1 : parseArgs lib inv.args c0 with
    | error e => rw [h1] at hmem; simp at hmem
    | ok c =>
      rw [h1] at hmem
      simp only at hmem
      split at hmem
      · simp only [serverAction, List.mem_cons, Effect.Initialize.injEq, List.mem_singleton,
          List.not_mem_nil, or_false] at hmem
        rcases hmem with h | h
        · rw [h]
          exact search_attributes_default lib inv c0 c hargs henv h0 h1
        · cases h
      · simp at hmem

/-- Witness for C8, amended: `--bind-dn` alone on the command line; the command
calls `server.Initialize`, with the list uid, dn, cn. -/
theorem default_search_attributes_passed_witness :
    ∃ args, Effect.Initialize args ∈ ((getServerCmd closedServer).Run stdLib
          { args := [("bind-dn", "cn=admin,dc=example,dc=org")], env := [], files := [] }).effects
      ∧ args.searchAttributes = ["uid", "dn", "cn"] :=
  ⟨{ ldapURL := "ldap://localhost", bindDN := "cn=admin,dc=example,dc=org",
     bindPassword := "", searchBase := "", searchScope := "sub",
     searchFilter := "(&(objectClass=inetOrgPerson)(uid=%s))",
     memberOfProperty := "ismemberof", searchAttributes := ["uid", "dn", "cn"] },
   by decide,
   default_search_attributes_passed stdLib closedServer
     { args := [("bind-dn", "cn=admin,dc=example,dc=org")], env := [], files := [] }
     (by decide) (by decide) _ (by decide)⟩

end K8sLdapAuth
